import Mathlib

/-!
Verification of the download-and-merge pipeline of `src/main.py`
(YT-Downloader) against its natural-language specification.

Pure computations of the source (percent arithmetic, ffprobe output
parsing, itag parsing, the merge-loop percent formula) are translated
directly into Lean functions.  The stateful body of
`MainWindow.download_video` is embedded as a trace-producing function over
an explicit input record.  The interleaving between the ffmpeg
progress-reader thread (`progress_reader`, lines 316-331) and the
one-second polling loop (lines 283-290) is captured by a schedule: entry
number `i` of the schedule is the count of progress lines the reader had
already consumed at the moment the polling loop performed its `i`-th read
of the shared one-slot list `q`; the loop iteration after the last entry
observes that the child process has exited and breaks.
-/

/-- Kinds of Python exception that the embedded pipeline code can raise. -/
inductive PyErr
  | unboundLocal (name : String)
  | jsonDecode
  | keyError (key : String)
  | typeError
  | indexErr
  | valueError
  | zeroDivision
  deriving DecidableEq

/-- Terminal outcome of `download_video`: the returned string, or the
uncaught exception that aborted it. -/
inductive Outcome
  | ok (s : String)
  | raised (e : PyErr)
  deriving DecidableEq

/-- Observable actions performed by `download_video`, in program order.
`downloadTo` is the completed blocking call `stream.download(...)` writing
one file into the scratch folder; `removeScratch` would be a cleanup of the
scratch directory (the source never performs one inside a run). -/
inductive Event
  | downloadTo (folder : ℕ) (file : String)
  | emitProgress (p : ℚ)
  | statusMsg (s : String)
  | probeDone (tot : ℚ)
  | mergeLaunch
  | publishMerge (p : ℚ)
  | closePipe
  | joinReader
  | reapWait
  | removeScratch (folder : ℕ)
  deriving DecidableEq

/-- Minimal JSON value tree, the shape of parsed ffprobe output
(`json.loads` at line 268 of the source). -/
inductive Json
  | null
  | boolVal (b : Bool)
  | num (q : ℚ)
  | str (s : String)
  | arr (xs : List Json)
  | obj (kvs : List (String × Json))

/-- Lookup on the key/value list of a JSON object, first match wins. -/
def lookupKv : List (String × Json) → String → Option Json
  | [], _ => none
  | (k, v) :: rest, key => if k = key then some v else lookupKv rest key

/-- Embedding of Python `d[key]`: `KeyError` on a missing key, `TypeError`
when the value is not an object. -/
def Json.lookup (j : Json) (key : String) : Except PyErr Json :=
  match j with
  | .obj kvs =>
    match lookupKv kvs key with
    | some v => .ok v
    | none => .error (.keyError key)
  | _ => .error .typeError

/-- Embedding of Python `l[i]` on a parsed JSON list: `IndexError` out of
range, `TypeError` when the value is not a list. -/
def Json.index (j : Json) (i : ℕ) : Except PyErr Json :=
  match j with
  | .arr xs =>
    match xs.get? i with
    | some v => .ok v
    | none => .error .indexErr
  | _ => .error .typeError

/-- Embedding of Python `str.split(sep)` on a character list. -/
def splitCols (sep : Char) : List Char → List (List Char)
  | [] => [[]]
  | c :: cs =>
    match splitCols sep cs with
    | [] => [[c]]
    | cur :: rest => if c = sep then [] :: cur :: rest else (c :: cur) :: rest

/-- Numeric value of a digit list (most significant first). -/
def digitsAux : List Char → ℕ → Option ℕ
  | [], acc => some acc
  | c :: cs, acc => if c.isDigit then digitsAux cs (acc * 10 + (c.toNat - 48)) else none

/-- Value of a non-empty all-digit character list, `none` otherwise. -/
def digitsOf : List Char → Option ℕ
  | [] => none
  | c :: cs => digitsAux (c :: cs) 0

/-- Modelling of the source's `float(...)` applied to ffprobe numeric
output: an unsigned decimal numeral with an optional fractional part
(packet counts are never negative, so no sign handling is embedded). -/
def parseDecimal (s : String) : Option ℚ :=
  match splitCols '.' s.toList with
  | [ip] => (digitsOf ip).map (fun n => (n : ℚ))
  | [ip, fp] =>
    match digitsOf ip, digitsOf fp with
    | some i, some f => some ((i : ℚ) + (f : ℚ) / ((10 : ℚ) ^ fp.length))
    | _, _ => none
  | _ => none

/-- Embedding of Python `float(v)` for a JSON value: numbers pass through,
strings are parsed (`ValueError` when unparsable), anything else is a
`TypeError`. -/
def pyFloat (j : Json) : Except PyErr ℚ :=
  match j with
  | .num q => .ok q
  | .str s =>
    match parseDecimal s with
    | some q => .ok q
    | none => .error .valueError
  | _ => .error .typeError

/-- Embedding of lines 267-269 of the source: `json.loads(data)` (a `none`
input models undecodable probe output), then
`float(dict["streams"][0]["nb_read_packets"])`. -/
def probeParse (data : Option Json) : Except PyErr ℚ :=
  match data with
  | none => .error .jsonDecode
  | some j => do
    let s ← j.lookup "streams"
    let v ← s.index 0
    let n ← v.lookup "nb_read_packets"
    pyFloat n

/-- Embedding of the whole ffprobe step: `sp.run` at line 267 is invoked
without `check=True`, so the subprocess exit code is never consulted and
only the captured stdout is parsed. -/
def probeRun (exitCode : ℤ) (data : Option Json) : Except PyErr ℚ :=
  probeParse data

/-- Embedding of `int(text.split(":")[1])` from lines 236 and 240:
`IndexError` when the split has no second column, `ValueError` when it is
not a numeral (itags are unsigned decimal numerals). -/
def itagOf (s : String) : Except PyErr ℤ :=
  match (splitCols ':' s.toList).get? 1 with
  | none => .error .indexErr
  | some t =>
    match digitsOf t with
    | none => .error .valueError
    | some n => .ok (n : ℤ)

/-- Result of one try/except-guarded itag assignment: `bound` when the
assignment succeeded, `unbound` when the guarded `IndexError` was caught
(leaving the Python local unassigned), `raised` for an uncaught exception. -/
inductive BindR
  | bound (n : ℤ)
  | unbound
  | raised (e : PyErr)
  deriving DecidableEq

/-- Lines 236-238: `audio_itag = int(self.audio[0].split(":")[1])` under
`except IndexError`, whose handler shows a status message and continues. -/
def audItagStep (l : List String) : BindR × List Event :=
  match l with
  | [] => (.unbound, [Event.statusMsg "No audio stream available."])
  | s :: _ =>
    match itagOf s with
    | .error .indexErr => (.unbound, [Event.statusMsg "No audio stream available."])
    | .error e => (.raised e, [])
    | .ok n => (.bound n, [])

/-- Lines 240-242: `video_itag = int(self.combobox.currentText().split(":")[1])`
under `except IndexError`, whose handler shows the same (copy-pasted)
status message. -/
def vidItagStep (t : String) : BindR × List Event :=
  match itagOf t with
  | .error .indexErr => (.unbound, [Event.statusMsg "No audio stream available."])
  | .error e => (.raised e, [])
  | .ok n => (.bound n, [])

/-- Value of the shared one-slot list `q` after the reader thread has
consumed some further progress lines, starting from current slot content
`cur`: each consumed line `frame=f` overwrites the slot (line 330,
last write wins). -/
def slotFrom (cur : ℕ) : List ℕ → ℕ → ℕ
  | _, 0 => cur
  | [], _ + 1 => cur
  | f :: fs, k + 1 => slotFrom f fs k

/-- Slot value after the reader consumed `k` of the emitted frame lines,
from the initial `q = [0]` of line 278. -/
def slotVal (frames : List ℕ) (k : ℕ) : ℕ :=
  slotFrom 0 frames k

/-- Percentages published by the polling loop of lines 283-290: at each
scheduled iteration the loop reads the slot and publishes
`n_frame / tot_n_frames * 100`; no clamping is applied anywhere. -/
def mergePercents (tot : ℚ) (frames : List ℕ) (sched : List ℕ) : List ℚ :=
  sched.map (fun k => (slotVal frames k : ℚ) / tot * 100)

/-- A schedule is realisable when the consumed-line counts are
non-decreasing over time and never exceed the number of emitted lines. -/
def validSched (frames sched : List ℕ) : Prop :=
  sched.Chain' (· ≤ ·) ∧ ∀ k ∈ sched, k ≤ frames.length

/-- Round-half-to-even on rationals, the rounding of Python's builtin
`round`. -/
def roundHalfEven (x : ℚ) : ℤ :=
  if x - ⌊x⌋ < 1/2 then ⌊x⌋
  else if 1/2 < x - ⌊x⌋ then ⌊x⌋ + 1
  else if ⌊x⌋ % 2 = 0 then ⌊x⌋ else ⌊x⌋ + 1

/-- Python `round(x, 2)`. -/
def round2 (x : ℚ) : ℚ :=
  (roundHalfEven (x * 100) : ℚ) / 100

/-- Embedding of `on_download_progress` (lines 300-314): percent of the
stream already downloaded, rounded to two decimals.  The byte counts
`stream.filesize` and `bytes_remaining` are taken as exact rationals. -/
def on_download_progress (total_size bytes_remaining : ℚ) : ℚ :=
  let bytes_downloaded := total_size - bytes_remaining
  round2 (bytes_downloaded / total_size * 100)

/-- Percent formula exactly as the specification words it. -/
def specDownloadPercent (total_size bytes_remaining : ℚ) : ℚ :=
  round2 ((total_size - bytes_remaining) / total_size * 100)

/-- Parameters of one merge-subprocess execution: the frame values of the
progress lines it emits, the polling-loop schedule (see the module
comment), and the exit code of the ffmpeg child process. -/
structure MergeWorld where
  frames : List ℕ
  sched : List ℕ
  exitCode : ℤ
  deriving DecidableEq

/-- Inputs determining one `download_video` execution: the `self.audio`
list, the combobox text, whether `get_by_itag` finds each stream, the
scratch folder (`self.temp_folder`), the percent last stored by the
download callback (`self.pct_completed`), the parsed ffprobe stdout, and
the merge subprocess behaviour. -/
structure RunInput where
  audList : List String
  comboText : String
  vidAvail : Bool
  audAvail : Bool
  tempFolder : ℕ
  pctCompleted : ℚ
  probeOut : Option Json
  merge : MergeWorld

/-- Lines 283-294: the polling loop, then pipe close, reader join and the
final reaping wait.  With a zero frame total and at least one loop
iteration, the first percent computation raises `ZeroDivisionError`
(Python float division), skipping the shutdown sequence.  The outcome is
built without ever consulting the merge exit code, exactly as the source
never checks `process.returncode`. -/
def mergePhase (inp : RunInput) (ev : List Event) (tot : ℚ) : List Event × Outcome :=
  let ev2 := ev ++ [Event.mergeLaunch]
  if tot = 0 ∧ inp.merge.sched ≠ [] then (ev2, .raised .zeroDivision)
  else
    (ev2 ++ (mergePercents tot inp.merge.frames inp.merge.sched).map Event.publishMerge ++
      [Event.closePipe, Event.joinReader, Event.reapWait,
        Event.statusMsg "Finished download."],
      .ok "Download complete.")

/-- Lines 247-269: the conditional blocking downloads into the scratch
folder, the single progress-callback emit, two status messages, then the
ffprobe step. -/
def afterItags (inp : RunInput) (ev0 : List Event) : List Event × Outcome :=
  let dl := (if inp.vidAvail then [Event.downloadTo inp.tempFolder "video.mp4"] else []) ++
    (if inp.audAvail then [Event.downloadTo inp.tempFolder "audio.mp3"] else [])
  let ev1 := ev0 ++ dl ++ [Event.emitProgress inp.pctCompleted,
    Event.statusMsg "Downloading video ...",
    Event.statusMsg "Merging video and audio streams..."]
  match probeParse inp.probeOut with
  | .error e => (ev1, .raised e)
  | .ok tot => mergePhase inp (ev1 ++ [Event.probeDone tot]) tot

/-- Embedding of `MainWindow.download_video` (lines 227-298) as the list
of observable events it performs plus its terminal outcome.  An itag left
unassigned by a caught `IndexError` raises `UnboundLocalError` at its
first use: `video_itag` at line 244, `audio_itag` at line 245. -/
def download_video (inp : RunInput) : List Event × Outcome :=
  match audItagStep inp.audList with
  | (.raised e, aEv) => (aEv, .raised e)
  | (aR, aEv) =>
    match vidItagStep inp.comboText with
    | (.raised e, vEv) => (aEv ++ vEv, .raised e)
    | (.unbound, vEv) => (aEv ++ vEv, .raised (.unboundLocal "video_itag"))
    | (.bound _, vEv) =>
      match aR with
      | .unbound => (aEv ++ vEv, .raised (.unboundLocal "audio_itag"))
      | _ => afterItags inp (aEv ++ vEv)

/-- Replace the merge subprocess exit code of an input. -/
def setExitCode (inp : RunInput) (c : ℤ) : RunInput :=
  { inp with merge := { inp.merge with exitCode := c } }

/-- Signals emitted by the worker wrapper.  The Python error tuple
`(exctype, value, traceback.format_exc())` is represented by the exception
value, from which the type and the traceback text derive. -/
inductive WSignal
  | errSig (e : PyErr)
  | resultSig (s : String)
  | fin
  deriving DecidableEq

/-- Embedding of `Worker.run` (lines 82-98): try/except/else/finally over
the wrapped pipeline function's outcome. -/
def workerRun (r : Outcome) : List WSignal :=
  match r with
  | .raised e => [WSignal.errSig e, WSignal.fin]
  | .ok v => [WSignal.resultSig v, WSignal.fin]

/-- Fields of `MainWindow.__init__` relevant to the scratch workspace:
`self.temp_folder = tempfile.TemporaryDirectory()` at line 121 is created
once per window object, not once per pipeline run. -/
structure AppState where
  tempFolder : ℕ
  tempExists : Bool
  deriving DecidableEq

/-- Line 121: the single scratch directory acquired at window creation. -/
def mainWindowInit (freshId : ℕ) : AppState :=
  { tempFolder := freshId, tempExists := true }

/-- Event classifiers used to state ordering properties of a trace. -/
def isProbeDone : Event → Bool
  | .probeDone _ => true
  | _ => false

/-- True on merge-percent publications. -/
def isPublish : Event → Bool
  | .publishMerge _ => true
  | _ => false

/-- True on completed stream downloads. -/
def isDownloadEv : Event → Bool
  | .downloadTo _ _ => true
  | _ => false

/-- True on the merge subprocess launch. -/
def isLaunch : Event → Bool
  | .mergeLaunch => true
  | _ => false

/-- True on scratch-directory removal. -/
def isRemoveScratch : Event → Bool
  | .removeScratch _ => true
  | _ => false

/-- Every `p`-event of the trace occurs strictly before every `q`-event. -/
def sepBy (p q : Event → Bool) (tr : List Event) : Prop :=
  ∀ i j (hi : i < tr.length) (hj : j < tr.length),
    p (tr[i]) = true → q (tr[j]) = true → i < j

/-- Well-formed ffprobe stdout whose packet-count field holds `s`. -/
def goodShape (s : String) : Json :=
  Json.obj [("streams", Json.arr [Json.obj [("nb_read_packets", Json.str s)]])]

/-- A representative fully-successful run input: both itags parse, both
streams resolve, the probe reports 240 packets, the merge emits frame
lines 100, 200, 240 and the loop reads the slot after 1 and after all 3
lines. -/
def exInp : RunInput :=
  { audList := ["160kbps itag:140"]
    comboText := "1080 itag:137"
    vidAvail := true
    audAvail := true
    tempFolder := 0
    pctCompleted := 100
    probeOut := some (goodShape "240")
    merge := { frames := [100, 200, 240], sched := [1, 3], exitCode := 0 } }

/-- The same run with an empty `self.audio` list. -/
def noAudInp : RunInput :=
  { exInp with audList := [] }

/-- A second window-level run reusing the same scratch folder, as happens
when the download button is pressed twice on one window. -/
def exInpSecond : RunInput :=
  { exInp with comboText := "720 itag:22", pctCompleted := 50 }

/-- Benign event shapes a `download_video` trace can contain, all scoped to
the scratch folder of the run input. -/
def benign (tf : ℕ) (e : Event) : Prop :=
  (∃ s, e = Event.statusMsg s) ∨ (∃ file, e = Event.downloadTo tf file) ∨
  (∃ p, e = Event.emitProgress p) ∨ (∃ t, e = Event.probeDone t) ∨
  e = Event.mergeLaunch ∨ (∃ p, e = Event.publishMerge p) ∨
  e = Event.closePipe ∨ e = Event.joinReader ∨ e = Event.reapWait

/-- Normal-run trace of `download_video`: when both itags parse, both streams resolve, the probe parses to a non-degenerate total, the run performs downloads, probe, merge launch, the scheduled percent publications and the shutdown sequence, and returns the success string of line 298. -/
theorem download_video_shape (inp : RunInput) (na nv : ℤ) (tot : ℚ)
    (ha : audItagStep inp.audList = (BindR.bound na, []))
    (hv : vidItagStep inp.comboText = (BindR.bound nv, []))
    (hvid : inp.vidAvail = true) (haud : inp.audAvail = true)
    (hp : probeParse inp.probeOut = Except.ok tot)
    (hz : ¬ (tot = 0 ∧ inp.merge.sched ≠ [])) :
    download_video inp =
      ([Event.downloadTo inp.tempFolder "video.mp4",
        Event.downloadTo inp.tempFolder "audio.mp3",
        Event.emitProgress inp.pctCompleted,
        Event.statusMsg "Downloading video ...",
        Event.statusMsg "Merging video and audio streams...",
        Event.probeDone tot, Event.mergeLaunch] ++
        (mergePercents tot inp.merge.frames inp.merge.sched).map Event.publishMerge ++
        [Event.closePipe, Event.joinReader, Event.reapWait,
          Event.statusMsg "Finished download."],
        Outcome.ok "Download complete.") := by
  rw [download_video, ha, hv]
  simp only [afterItags, hvid, haud, hp, mergePhase, if_true, if_neg hz]
  simp

/-- One more consumed progress line never decreases the slot when the frame values arrive in non-decreasing order. -/
theorem slotFrom_le_succ (fs : List ℕ) : ∀ (cur k : ℕ), List.Chain (· ≤ ·) cur fs →
    slotFrom cur fs k ≤ slotFrom cur fs (k + 1) := by
  induction fs with
  | nil => intro cur k _; cases k <;> simp [slotFrom]
  | cons f fs ih =>
    intro cur k hch
    rcases List.chain_cons.mp hch with ⟨h1, h2⟩
    cases k with
    | zero => simpa [slotFrom] using h1
    | succ k => simpa [slotFrom] using ih f k h2

/-- The initial slot content 0 extends a non-decreasing frame list to a chain. -/
theorem chain_zero_of_chain' (frames : List ℕ) (h : frames.Chain' (· ≤ ·)) :
    List.Chain (· ≤ ·) 0 frames := by
  cases frames with
  | nil => exact List.Chain.nil
  | cons f fs => exact List.chain_cons.mpr ⟨Nat.zero_le f, h⟩

/-- With non-decreasing frame lines, the slot value is monotone in the number of consumed lines. -/
theorem slotVal_mono (frames : List ℕ) (h : frames.Chain' (· ≤ ·)) {k k' : ℕ} (hk : k ≤ k') :
    slotVal frames k ≤ slotVal frames k' := by
  induction k', hk using Nat.le_induction with
  | base => exact le_refl _
  | succ m _ ih =>
    exact le_trans ih (slotFrom_le_succ frames 0 m (chain_zero_of_chain' frames h))

/-- The slot always holds its initial content or one of the consumed frame values. -/
theorem slotFrom_eq_or_mem (fs : List ℕ) : ∀ (cur k : ℕ),
    slotFrom cur fs k = cur ∨ slotFrom cur fs k ∈ fs := by
  induction fs with
  | nil => intro cur k; left; cases k <;> rfl
  | cons f fs ih =>
    intro cur k
    cases k with
    | zero => left; rfl
    | succ k =>
      rcases ih f k with h | h
      · right; simp [slotFrom, h]
      · right; simp [slotFrom]; right; exact h

/-- The slot holds 0 or one of the emitted frame values. -/
theorem slotVal_zero_or_mem (frames : List ℕ) (k : ℕ) :
    slotVal frames k = 0 ∨ slotVal frames k ∈ frames :=
  slotFrom_eq_or_mem frames 0 k

/-- Published merge percentages stay within [0, 100] whenever every emitted frame value is at most the probe total. -/
theorem mergePercents_bounds {tot : ℚ} (frames sched : List ℕ) (htot : 0 < tot)
    (hb : ∀ f ∈ frames, (f : ℚ) ≤ tot) :
    ∀ p ∈ mergePercents tot frames sched, 0 ≤ p ∧ p ≤ 100 := by
  intro p hp
  rw [mergePercents, List.mem_map] at hp
  obtain ⟨k, -, rfl⟩ := hp
  have hs : (slotVal frames k : ℚ) ≤ tot := by
    rcases slotVal_zero_or_mem frames k with h | h
    · rw [h]; exact_mod_cast le_of_lt htot
    · exact hb _ h
  constructor
  · positivity
  · have h1 : (slotVal frames k : ℚ) / tot ≤ 1 := (div_le_one htot).mpr hs
    calc (slotVal frames k : ℚ) / tot * 100 ≤ 1 * 100 :=
          mul_le_mul_of_nonneg_right h1 (by norm_num)
      _ = 100 := by norm_num

/-- Published merge percentages are non-decreasing along any realisable schedule when the frame lines are non-decreasing. -/
theorem mergePercents_chain {tot : ℚ} (frames sched : List ℕ) (htot : 0 < tot)
    (hfr : frames.Chain' (· ≤ ·)) (hs : sched.Chain' (· ≤ ·)) :
    (mergePercents tot frames sched).Chain' (· ≤ ·) := by
  rw [mergePercents, List.chain'_map]
  refine hs.imp (fun a b hab => ?_)
  have hc : (slotVal frames a : ℚ) ≤ (slotVal frames b : ℚ) :=
    Nat.cast_le.mpr (slotVal_mono frames hfr hab)
  exact mul_le_mul_of_nonneg_right ((div_le_div_iff_of_pos_right htot).mpr hc) (by norm_num)

/-- Rounding never goes below the floor. -/
theorem roundHalfEven_ge_floor (x : ℚ) : ⌊x⌋ ≤ roundHalfEven x := by
  unfold roundHalfEven
  split_ifs <;> omega

/-- Rounding never goes above the floor plus one. -/
theorem roundHalfEven_le_floor_add_one (x : ℚ) : roundHalfEven x ≤ ⌊x⌋ + 1 := by
  unfold roundHalfEven
  split_ifs <;> omega

/-- Rounding preserves non-negativity. -/
theorem roundHalfEven_nonneg {x : ℚ} (hx : 0 ≤ x) : 0 ≤ roundHalfEven x :=
  le_trans (Int.floor_nonneg.mpr hx) (roundHalfEven_ge_floor x)

/-- Rounding never exceeds an integer upper bound of the argument. -/
theorem roundHalfEven_le_int {x : ℚ} (n : ℤ) (hx : x ≤ n) : roundHalfEven x ≤ n := by
  have hfn : ⌊x⌋ ≤ n := by
    have := Int.floor_mono hx
    rwa [Int.floor_intCast] at this
  have hfl : (⌊x⌋ : ℚ) ≤ x := Int.floor_le x
  unfold roundHalfEven
  split_ifs with h1 h2 h3
  · exact hfn
  · have hlt : (⌊x⌋ : ℚ) < x := by linarith
    have : (⌊x⌋ : ℚ) < (n : ℚ) := lt_of_lt_of_le hlt hx
    have : ⌊x⌋ < n := by exact_mod_cast this
    omega
  · exact hfn
  · have hlt : (⌊x⌋ : ℚ) < x := by linarith
    have : (⌊x⌋ : ℚ) < (n : ℚ) := lt_of_lt_of_le hlt hx
    have : ⌊x⌋ < n := by exact_mod_cast this
    omega

/-- Round-half-to-even is monotone. -/
theorem roundHalfEven_mono {x y : ℚ} (h : x ≤ y) : roundHalfEven x ≤ roundHalfEven y := by
  rcases (Int.floor_mono h).lt_or_eq with hlt | heq
  · calc roundHalfEven x ≤ ⌊x⌋ + 1 := roundHalfEven_le_floor_add_one x
      _ ≤ ⌊y⌋ := by omega
      _ ≤ roundHalfEven y := roundHalfEven_ge_floor y
  · unfold roundHalfEven
    rw [← heq]
    split_ifs <;> first | omega | (exfalso; linarith)

/-- Two-decimal rounding preserves non-negativity. -/
theorem round2_nonneg {x : ℚ} (hx : 0 ≤ x) : 0 ≤ round2 x := by
  unfold round2
  have h : (0 : ℤ) ≤ roundHalfEven (x * 100) := roundHalfEven_nonneg (by positivity)
  have h2 : (0 : ℚ) ≤ (roundHalfEven (x * 100) : ℚ) := by exact_mod_cast h
  positivity

/-- Two-decimal rounding preserves the bound 100. -/
theorem round2_le_100 {x : ℚ} (hx : x ≤ 100) : round2 x ≤ 100 := by
  unfold round2
  have h : roundHalfEven (x * 100) ≤ (10000 : ℤ) :=
    roundHalfEven_le_int 10000 (by push_cast; linarith)
  have h2 : (roundHalfEven (x * 100) : ℚ) ≤ 10000 := by exact_mod_cast h
  linarith

/-- Two-decimal rounding is monotone. -/
theorem round2_mono {x y : ℚ} (h : x ≤ y) : round2 x ≤ round2 y := by
  unfold round2
  have hr : roundHalfEven (x * 100) ≤ roundHalfEven (y * 100) :=
    roundHalfEven_mono (by linarith)
  have hr2 : (roundHalfEven (x * 100) : ℚ) ≤ (roundHalfEven (y * 100) : ℚ) := by exact_mod_cast hr
  linarith

/-- A split of a trace with all `p`-events in the left part and all `q`-events in the right part orders every `p`-event before every `q`-event. -/
theorem sepBy_of_append (p q : Event → Bool) (A B : List Event)
    (hA : ∀ e ∈ A, q e = false) (hB : ∀ e ∈ B, p e = false) :
    sepBy p q (A ++ B) := by
  intro i j hi hj hpi hqj
  have hiA : i < A.length := by
    by_contra hc
    push_neg at hc
    have hmem : (A ++ B)[i] ∈ B := by
      rw [List.getElem_append_right hc]
      exact List.getElem_mem _
    rw [hB _ hmem] at hpi
    exact Bool.false_ne_true hpi
  have hjA : A.length ≤ j := by
    by_contra hc
    push_neg at hc
    have hmem : (A ++ B)[j] ∈ A := by
      rw [List.getElem_append_left hc]
      exact List.getElem_mem _
    rw [hA _ hmem] at hqj
    exact Bool.false_ne_true hqj
  omega

/-- The audio itag step shows at most the one status message. -/
theorem audItagStep_snd (l : List String) :
    (audItagStep l).2 = [] ∨
      (audItagStep l).2 = [Event.statusMsg "No audio stream available."] := by
  rcases l with - | ⟨s, rest⟩
  · right; rfl
  · rw [audItagStep]
    rcases h : itagOf s with e | n
    · cases e <;> simp
    · simp

/-- The video itag step shows at most the one status message. -/
theorem vidItagStep_snd (t : String) :
    (vidItagStep t).2 = [] ∨
      (vidItagStep t).2 = [Event.statusMsg "No audio stream available."] := by
  rw [vidItagStep]
  rcases h : itagOf t with e | n
  · cases e <;> simp
  · simp

/-- Every event of the merge phase is benign. -/
theorem mergePhase_mem (inp : RunInput) (ev : List Event) (tot : ℚ)
    (h0 : ∀ x ∈ ev, benign inp.tempFolder x) :
    ∀ e ∈ (mergePhase inp ev tot).1, benign inp.tempFolder e := by
  intro e he
  simp only [mergePhase] at he
  by_cases hc : tot = 0 ∧ inp.merge.sched ≠ []
  · rw [if_pos hc] at he
    rcases List.mem_append.mp he with h | h
    · exact h0 e h
    · simp only [List.mem_singleton] at h
      subst h
      right; right; right; right; left; rfl
  · rw [if_neg hc] at he
    rcases List.mem_append.mp he with h | h
    · rcases List.mem_append.mp h with h2 | h2
      · rcases List.mem_append.mp h2 with h3 | h3
        · exact h0 e h3
        · simp only [List.mem_singleton] at h3
          subst h3
          right; right; right; right; left; rfl
      · rw [List.mem_map] at h2
        obtain ⟨p, -, rfl⟩ := h2
        right; right; right; right; right; left; exact ⟨p, rfl⟩
    · simp only [List.mem_cons, List.mem_singleton, List.not_mem_nil, or_false] at h
      rcases h with rfl | rfl | rfl | rfl
      · right; right; right; right; right; right; left; rfl
      · right; right; right; right; right; right; right; left; rfl
      · right; right; right; right; right; right; right; right; rfl
      · left; exact ⟨_, rfl⟩

/-- Every event after the itag steps is benign. -/
theorem afterItags_mem (inp : RunInput) (ev0 : List Event)
    (h0 : ∀ x ∈ ev0, benign inp.tempFolder x) :
    ∀ e ∈ (afterItags inp ev0).1, benign inp.tempFolder e := by
  intro e he
  simp only [afterItags] at he
  have hdl : ∀ x ∈ ((if inp.vidAvail then [Event.downloadTo inp.tempFolder "video.mp4"] else []) ++
      (if inp.audAvail then [Event.downloadTo inp.tempFolder "audio.mp3"] else [])),
      benign inp.tempFolder x := by
    intro x hx
    rcases List.mem_append.mp hx with h | h <;> [skip; skip] <;>
      · split at h
        · simp only [List.mem_singleton] at h
          subst h
          right; left; exact ⟨_, rfl⟩
        · simp at h
  have hev1 : ∀ x ∈ ev0 ++ ((if inp.vidAvail then [Event.downloadTo inp.tempFolder "video.mp4"] else []) ++
      (if inp.audAvail then [Event.downloadTo inp.tempFolder "audio.mp3"] else [])) ++
      [Event.emitProgress inp.pctCompleted, Event.statusMsg "Downloading video ...",
        Event.statusMsg "Merging video and audio streams..."], benign inp.tempFolder x := by
    intro x hx
    rcases List.mem_append.mp hx with h | h
    · rcases List.mem_append.mp h with h2 | h2
      · exact h0 x h2
      · exact hdl x h2
    · simp only [List.mem_cons, List.mem_singleton, List.not_mem_nil, or_false] at h
      rcases h with rfl | rfl | rfl
      · right; right; left; exact ⟨_, rfl⟩
      · left; exact ⟨_, rfl⟩
      · left; exact ⟨_, rfl⟩
  rcases hp : probeParse inp.probeOut with err | tot
  · rw [hp] at he
    exact hev1 e he
  · rw [hp] at he
    refine mergePhase_mem inp _ tot ?_ e he
    intro x hx
    rcases List.mem_append.mp hx with h | h
    · exact hev1 x h
    · simp only [List.mem_singleton] at h
      subst h
      right; right; right; left; exact ⟨_, rfl⟩

/-- Every event of a `download_video` trace is benign: a status message, a download into the run input scratch folder, the progress emit, the probe completion, the merge launch, a percent publication, or the shutdown steps; in particular no scratch removal ever occurs. -/
theorem download_video_mem (inp : RunInput) :
    ∀ e ∈ (download_video inp).1, benign inp.tempFolder e := by
  intro e he
  rw [download_video] at he
  have haux := audItagStep_snd inp.audList
  have hvaux := vidItagStep_snd inp.comboText
  rcases ha : audItagStep inp.audList with ⟨aR, aEv⟩
  rcases hv : vidItagStep inp.comboText with ⟨vR, vEv⟩
  rw [ha] at he haux
  rw [hv] at he hvaux
  simp only at haux hvaux
  have haEv : ∀ x ∈ aEv, benign inp.tempFolder x := by
    intro x hx
    rcases haux with h | h <;> subst h
    · simp at hx
    · simp only [List.mem_singleton] at hx
      subst hx
      exact Or.inl ⟨_, rfl⟩
  have hvEv : ∀ x ∈ vEv, benign inp.tempFolder x := by
    intro x hx
    rcases hvaux with h | h <;> subst h
    · simp at hx
    · simp only [List.mem_singleton] at hx
      subst hx
      exact Or.inl ⟨_, rfl⟩
  have hav : ∀ x ∈ aEv ++ vEv, benign inp.tempFolder x := by
    intro x hx
    rcases List.mem_append.mp hx with h | h
    · exact haEv x h
    · exact hvEv x h
  cases aR with
  | raised e2 =>
    simp only at he
    exact haEv e he
  | unbound =>
    cases vR with
    | raised e2 =>
      simp only at he
      exact hav e he
    | unbound =>
      simp only at he
      exact hav e he
    | bound n =>
      simp only at he
      exact hav e he
  | bound n =>
    cases vR with
    | raised e2 =>
      simp only at he
      exact hav e he
    | unbound =>
      simp only at he
      exact hav e he
    | bound m =>
      simp only at he
      exact afterItags_mem inp _ hav e he

/-- C1: counterexample.  The merge loop publishes `frame / total * 100` with no clamping: with total 1000 and a frame line 1001 (one more frame than the probed packet count), a realisable schedule publishes 100.1, outside [0, 100], so the claimed clamping of every reported percentage to [0, 100] is false of the code. -/
theorem c1_counterexample :
    validSched [1001] [1] ∧
    mergePercents 1000 [1001] [1] = [1001 / 10] ∧ ¬ ((1001 : ℚ) / 10 ≤ 100) := by
  refine ⟨⟨by simp, by decide⟩, ?_, by norm_num⟩
  have h : slotVal [1001] 1 = 1001 := rfl
  simp [mergePercents, h]
  norm_num

/-- C1 (amended): download percentages lie in [0, 100] and grow as bytes_remaining shrinks within one stream; merge percentages lie in [0, 100] and are non-decreasing along any realisable schedule provided every emitted frame value is at most the probed total — the code itself applies no clamping, so a frame value above the total yields a percentage above 100, and the percentage restarts between the video and the audio download. -/
theorem c1_amended :
    (∀ total_size bytes_remaining : ℚ, 0 < total_size → 0 ≤ bytes_remaining →
      bytes_remaining ≤ total_size →
      0 ≤ on_download_progress total_size bytes_remaining ∧
        on_download_progress total_size bytes_remaining ≤ 100) ∧
    (∀ total_size r r' : ℚ, 0 < total_size → 0 ≤ r' → r' ≤ r → r ≤ total_size →
      on_download_progress total_size r ≤ on_download_progress total_size r') ∧
    (∀ (tot : ℚ) (frames sched : List ℕ), 0 < tot → frames.Chain' (· ≤ ·) →
      (∀ f ∈ frames, (f : ℚ) ≤ tot) → validSched frames sched →
      (∀ p ∈ mergePercents tot frames sched, 0 ≤ p ∧ p ≤ 100) ∧
        (mergePercents tot frames sched).Chain' (· ≤ ·)) := by
  refine ⟨?_, ?_, ?_⟩
  · intro T r h0 h1 h2
    simp only [on_download_progress]
    have hx0 : 0 ≤ (T - r) / T * 100 := by
      have hn : 0 ≤ T - r := by linarith
      positivity
    have hx1 : (T - r) / T * 100 ≤ 100 := by
      have h3 : (T - r) / T ≤ 1 := (div_le_one h0).mpr (by linarith)
      calc (T - r) / T * 100 ≤ 1 * 100 := mul_le_mul_of_nonneg_right h3 (by norm_num)
        _ = 100 := by norm_num
    exact ⟨round2_nonneg hx0, round2_le_100 hx1⟩
  · intro T r r' h0 h1 h2 h3
    simp only [on_download_progress]
    apply round2_mono
    have h4 : (T - r) / T ≤ (T - r') / T :=
      (div_le_div_iff_of_pos_right h0).mpr (by linarith)
    exact mul_le_mul_of_nonneg_right h4 (by norm_num)
  · intro tot frames sched htot hfr hb hv
    exact ⟨mergePercents_bounds frames sched htot hb,
      mergePercents_chain frames sched htot hfr hv.1⟩

/-- C1: witness instantiating the amended theorem at concrete inputs. -/
theorem c1_witness :
    (0 : ℚ) < 2048 ∧
    (0 ≤ on_download_progress 2048 512 ∧ on_download_progress 2048 512 ≤ 100) ∧
    (∀ p ∈ mergePercents 1000 [100, 500, 1000] [1, 2, 3], 0 ≤ p ∧ p ≤ 100) :=
  ⟨by norm_num,
    c1_amended.1 2048 512 (by norm_num) (by norm_num) (by norm_num),
    (c1_amended.2.2 1000 [100, 500, 1000] [1, 2, 3] (by norm_num)
      (by simp [List.chain'_cons])
      (by intro f hf; fin_cases hf <;> norm_num)
      ⟨by simp [List.chain'_cons], by decide⟩).1⟩

/-- C2: counterexample.  With total 1000 and frame lines 100, 500, 1000, the realisable schedule in which the polling loop reads the slot once after two consumed lines and then observes the exit publishes only 50: the final published percentage is not 100, because the loop breaks on exit before publishing and the reader may not have consumed the last line by the final read. -/
theorem c2_counterexample :
    validSched [100, 500, 1000] [2] ∧
    mergePercents 1000 [100, 500, 1000] [2] = [50] ∧ (50 : ℚ) ≠ 100 := by
  refine ⟨⟨by simp, by decide⟩, ?_, by norm_num⟩
  have h : slotVal [100, 500, 1000] 2 = 500 := rfl
  simp [mergePercents, h]
  norm_num

/-- C2 (amended): for total 1000 and frame lines 100, 500, 1000, every realisable schedule gives a non-decreasing published sequence bounded by 100, and the final published percentage is exactly 100 when the final slot read happens after all three lines were consumed. -/
theorem c2_amended (sched : List ℕ) (hs : validSched [100, 500, 1000] sched) :
    (mergePercents 1000 [100, 500, 1000] sched).Chain' (· ≤ ·) ∧
    (∀ p ∈ mergePercents 1000 [100, 500, 1000] sched, p ≤ 100) ∧
    (sched.getLast? = some 3 →
      (mergePercents 1000 [100, 500, 1000] sched).getLast? = some 100) := by
  obtain ⟨hch, hub⟩ := hs
  refine ⟨mergePercents_chain _ _ (by norm_num) (by simp [List.chain'_cons]) hch, ?_, ?_⟩
  · intro p hp
    exact (mergePercents_bounds _ sched (by norm_num)
      (by intro f hf; fin_cases hf <;> norm_num) p hp).2
  · intro hlast
    rw [mergePercents, List.getLast?_map, hlast]
    have h : slotVal [100, 500, 1000] 3 = 1000 := rfl
    simp [h]

/-- C2: witness instantiating the amended theorem at the complete schedule. -/
theorem c2_witness :
    validSched [100, 500, 1000] [1, 2, 3] ∧
    ([1, 2, 3] : List ℕ).getLast? = some 3 ∧
    (mergePercents 1000 [100, 500, 1000] [1, 2, 3]).getLast? = some 100 :=
  ⟨⟨by simp [List.chain'_cons], by decide⟩, rfl,
    (c2_amended [1, 2, 3] ⟨by simp [List.chain'_cons], by decide⟩).2.2 rfl⟩

/-- C3: counterexample.  The probe step never consults the subprocess exit code: with exit code 1 and well-formed output it still returns 240 instead of a ProbeFailed error, and a well-formed zero packet count is returned as the non-positive total 0, which flows into the merge-percent division. -/
theorem c3_counterexample :
    probeRun 1 (some (goodShape "240")) = Except.ok 240 ∧
    probeRun 0 (some (goodShape "0")) = Except.ok 0 ∧ ¬ (0 : ℚ) < 0 :=
  ⟨rfl, rfl, by norm_num⟩

/-- C3 (amended): the probe result is independent of the exit code; undecodable output, a missing streams key, and similar malformations abort with untyped Python exceptions (JSONDecodeError, KeyError, ...), no typed ProbeFailed existing anywhere; well-formed output yields exactly the parsed float of the packet-count field, zero included. -/
theorem c3_amended :
    (∀ (ec ec' : ℤ) (d : Option Json), probeRun ec d = probeRun ec' d) ∧
    probeParse none = Except.error PyErr.jsonDecode ∧
    (∀ kvs, lookupKv kvs "streams" = none →
      probeParse (some (Json.obj kvs)) = Except.error (PyErr.keyError "streams")) ∧
    (∀ s q, parseDecimal s = some q → probeParse (some (goodShape s)) = Except.ok q) := by
  refine ⟨fun ec ec' d => rfl, rfl, ?_, ?_⟩
  · intro kvs h
    simp only [probeParse, Json.lookup, h]
    rfl
  · intro s q h
    have h1 : probeParse (some (goodShape s)) = pyFloat (Json.str s) := rfl
    rw [h1]
    simp [pyFloat, h]

/-- C3: witness instantiating the amended theorem at concrete probe outputs. -/
theorem c3_witness :
    lookupKv [] "streams" = none ∧ parseDecimal "240" = some 240 ∧
    probeParse (some (Json.obj [])) = Except.error (PyErr.keyError "streams") ∧
    probeParse (some (goodShape "240")) = Except.ok 240 :=
  ⟨rfl, rfl, c3_amended.2.2.1 [] rfl, c3_amended.2.2.2 "240" 240 rfl⟩

/-- C4: counterexample.  A merge subprocess exiting with code 1 still ends the run with the success return value of line 298: no MergeFailed error exists and the non-zero exit is silently swallowed. -/
theorem c4_counterexample :
    (setExitCode exInp 1).merge.exitCode = 1 ∧
    (download_video (setExitCode exInp 1)).2 = Outcome.ok "Download complete." :=
  ⟨rfl, rfl⟩

/-- C4 (amended): the pipeline never examines the merge exit code — the whole trace and outcome of `download_video` are independent of it, so a failed merge reports the same completion as a successful one. -/
theorem c4_amended : ∀ (inp : RunInput) (c : ℤ),
    download_video (setExitCode inp c) = download_video inp :=
  fun _ _ => rfl

/-- C5: counterexample.  Two runs on the same window both download `video.mp4` into the one scratch folder created at window init, and the first run performs no scratch removal, so the scratch directory is neither fresh per run nor removed on exit. -/
theorem c5_counterexample :
    Event.downloadTo (mainWindowInit 0).tempFolder "video.mp4" ∈ (download_video exInp).1 ∧
    Event.downloadTo (mainWindowInit 0).tempFolder "video.mp4" ∈ (download_video exInpSecond).1 ∧
    (download_video exInp).1.all (fun e => !(isRemoveScratch e)) = true := by
  refine ⟨?_, ?_, by decide⟩
  · rw [download_video_shape exInp 140 137 240 rfl rfl rfl rfl rfl (by norm_num)]
    simp [mainWindowInit, exInp]
  · rw [download_video_shape exInpSecond 140 22 240 rfl rfl rfl rfl rfl (by norm_num)]
    simp [mainWindowInit, exInpSecond, exInp]

/-- C5 (amended): every run writes its files into the single window-level scratch folder passed in, and no exit path of `download_video` removes the scratch directory; cleanup happens only through the TemporaryDirectory finalizer at interpreter exit. -/
theorem c5_amended : ∀ (inp : RunInput),
    (∀ folder file, Event.downloadTo folder file ∈ (download_video inp).1 →
      folder = inp.tempFolder) ∧
    (∀ e ∈ (download_video inp).1, isRemoveScratch e = false) := by
  intro inp
  constructor
  · intro folder file hmem
    have h := download_video_mem inp _ hmem
    rcases h with ⟨s, h⟩ | ⟨f2, h⟩ | ⟨p, h⟩ | ⟨t, h⟩ | h | ⟨p, h⟩ | h | h | h
    · exact absurd h (by simp)
    · simp only [Event.downloadTo.injEq] at h
      exact h.1
    · exact absurd h (by simp)
    · exact absurd h (by simp)
    · exact absurd h (by simp)
    · exact absurd h (by simp)
    · exact absurd h (by simp)
    · exact absurd h (by simp)
    · exact absurd h (by simp)
  · intro e he
    have h := download_video_mem inp e he
    rcases h with ⟨s, rfl⟩ | ⟨f2, rfl⟩ | ⟨p, rfl⟩ | ⟨t, rfl⟩ | rfl | ⟨p, rfl⟩ | rfl | rfl | rfl <;> rfl

/-- C5: witness instantiating the amended theorem at the example run. -/
theorem c5_witness :
    Event.downloadTo 0 "video.mp4" ∈ (download_video exInp).1 ∧
    (0 : ℕ) = exInp.tempFolder ∧
    isRemoveScratch (Event.downloadTo 0 "video.mp4") = false :=
  ⟨by decide, (c5_amended exInp).1 0 "video.mp4" (by decide),
    (c5_amended exInp).2 _ (by decide)⟩

/-- C6: with an empty audio list the run shows the warning status message and then deterministically aborts with the untyped UnboundLocalError raised at the `get_by_itag(audio_itag)` call of line 245, instead of proceeding to a NoAudioStream-flagged outcome. -/
theorem c6_no_audio_crash :
    download_video noAudInp =
      ([Event.statusMsg "No audio stream available."],
        Outcome.raised (PyErr.unboundLocal "audio_itag")) :=
  rfl

/-- C7: the download progress callback reports exactly `(total_size - bytes_remaining) / total_size * 100` rounded to two decimal places, as the specification states. -/
theorem c7_download_percent_formula :
    ∀ total_size bytes_remaining : ℚ,
      on_download_progress total_size bytes_remaining =
        specDownloadPercent total_size bytes_remaining :=
  fun _ _ => rfl

/-- C8: on every normal run the frame-count probe completes strictly before any merge percentage is published, and the merge subprocess is launched only after both the video and the audio download calls have returned. -/
theorem c8_ordering (inp : RunInput) (na nv : ℤ) (tot : ℚ)
    (ha : audItagStep inp.audList = (BindR.bound na, []))
    (hv : vidItagStep inp.comboText = (BindR.bound nv, []))
    (hvid : inp.vidAvail = true) (haud : inp.audAvail = true)
    (hp : probeParse inp.probeOut = Except.ok tot)
    (hz : ¬ (tot = 0 ∧ inp.merge.sched ≠ [])) :
    sepBy isProbeDone isPublish (download_video inp).1 ∧
    sepBy isDownloadEv isLaunch (download_video inp).1 := by
  rw [download_video_shape inp na nv tot ha hv hvid haud hp hz]
  constructor
  · exact sepBy_of_append isProbeDone isPublish
      [Event.downloadTo inp.tempFolder "video.mp4",
        Event.downloadTo inp.tempFolder "audio.mp3",
        Event.emitProgress inp.pctCompleted,
        Event.statusMsg "Downloading video ...",
        Event.statusMsg "Merging video and audio streams...",
        Event.probeDone tot, Event.mergeLaunch]
      ((mergePercents tot inp.merge.frames inp.merge.sched).map Event.publishMerge ++
        [Event.closePipe, Event.joinReader, Event.reapWait,
          Event.statusMsg "Finished download."])
      (by intro e he; fin_cases he <;> rfl)
      (by
        intro e he
        rcases List.mem_append.mp he with h | h
        · rw [List.mem_map] at h
          obtain ⟨p, -, rfl⟩ := h
          rfl
        · fin_cases h <;> rfl)
  · exact sepBy_of_append isDownloadEv isLaunch
      [Event.downloadTo inp.tempFolder "video.mp4",
        Event.downloadTo inp.tempFolder "audio.mp3",
        Event.emitProgress inp.pctCompleted,
        Event.statusMsg "Downloading video ...",
        Event.statusMsg "Merging video and audio streams...",
        Event.probeDone tot]
      (Event.mergeLaunch ::
        ((mergePercents tot inp.merge.frames inp.merge.sched).map Event.publishMerge ++
          [Event.closePipe, Event.joinReader, Event.reapWait,
            Event.statusMsg "Finished download."]))
      (by intro e he; fin_cases he <;> rfl)
      (by
        intro e he
        rcases List.mem_cons.mp he with rfl | h2
        · rfl
        · rcases List.mem_append.mp h2 with h | h
          · rw [List.mem_map] at h
            obtain ⟨p, -, rfl⟩ := h
            rfl
          · fin_cases h <;> rfl)

/-- C8: witness instantiating the ordering theorem at the example run. -/
theorem c8_witness :
    probeParse exInp.probeOut = Except.ok 240 ∧
    sepBy isProbeDone isPublish (download_video exInp).1 ∧
    sepBy isDownloadEv isLaunch (download_video exInp).1 :=
  ⟨rfl,
    (c8_ordering exInp 140 137 240 rfl rfl rfl rfl rfl (by norm_num)).1,
    (c8_ordering exInp 140 137 240 rfl rfl rfl rfl rfl (by norm_num)).2⟩

/-- C9: after the polling loop observes the child process exit, the run performs exactly the shutdown sequence close-pipe, join-reader, final-wait, in this order, and none of these three actions occurs earlier in the trace. -/
theorem c9_shutdown (inp : RunInput) (na nv : ℤ) (tot : ℚ)
    (ha : audItagStep inp.audList = (BindR.bound na, []))
    (hv : vidItagStep inp.comboText = (BindR.bound nv, []))
    (hvid : inp.vidAvail = true) (haud : inp.audAvail = true)
    (hp : probeParse inp.probeOut = Except.ok tot)
    (hz : ¬ (tot = 0 ∧ inp.merge.sched ≠ [])) :
    ∃ pre, download_video inp =
      (pre ++ [Event.closePipe, Event.joinReader, Event.reapWait,
        Event.statusMsg "Finished download."], Outcome.ok "Download complete.") ∧
      ∀ e ∈ pre, e ≠ Event.closePipe ∧ e ≠ Event.joinReader ∧ e ≠ Event.reapWait := by
  refine ⟨[Event.downloadTo inp.tempFolder "video.mp4",
      Event.downloadTo inp.tempFolder "audio.mp3",
      Event.emitProgress inp.pctCompleted,
      Event.statusMsg "Downloading video ...",
      Event.statusMsg "Merging video and audio streams...",
      Event.probeDone tot, Event.mergeLaunch] ++
      (mergePercents tot inp.merge.frames inp.merge.sched).map Event.publishMerge, ?_, ?_⟩
  · rw [download_video_shape inp na nv tot ha hv hvid haud hp hz]
  · intro e he
    rcases List.mem_append.mp he with h | h
    · fin_cases h <;> exact ⟨by simp, by simp, by simp⟩
    · rw [List.mem_map] at h
      obtain ⟨p, -, rfl⟩ := h
      exact ⟨by simp, by simp, by simp⟩

/-- C9: witness instantiating the shutdown theorem at the example run. -/
theorem c9_witness :
    vidItagStep exInp.comboText = (BindR.bound 137, []) ∧
    (∃ pre, download_video exInp =
      (pre ++ [Event.closePipe, Event.joinReader, Event.reapWait,
        Event.statusMsg "Finished download."], Outcome.ok "Download complete.") ∧
      ∀ e ∈ pre, e ≠ Event.closePipe ∧ e ≠ Event.joinReader ∧ e ≠ Event.reapWait) :=
  ⟨rfl, c9_shutdown exInp 140 137 240 rfl rfl rfl rfl rfl (by norm_num)⟩

/-- C10: the worker wrapper emits the finished signal exactly once on every outcome; a raised exception emits the error signal with the exception data and no result signal, and a normal return emits the result signal with the returned value and no error signal. -/
theorem c10_worker_signals :
    ∀ r : Outcome,
      (workerRun r).count WSignal.fin = 1 ∧
      (∀ e, r = Outcome.raised e → workerRun r = [WSignal.errSig e, WSignal.fin]) ∧
      (∀ v, r = Outcome.ok v → workerRun r = [WSignal.resultSig v, WSignal.fin]) := by
  intro r
  cases r with
  | ok v =>
    refine ⟨rfl, ?_, ?_⟩
    · intro e h
      simp at h
    · intro v2 h
      injection h with h1
      subst h1
      rfl
  | raised e =>
    refine ⟨rfl, ?_, ?_⟩
    · intro e2 h
      injection h with h1
      subst h1
      rfl
    · intro v h
      simp at h

/-- C10: witness instantiating the worker-signal theorem at the successful outcome. -/
theorem c10_witness :
    (workerRun (Outcome.ok "Download complete.")).count WSignal.fin = 1 ∧
    workerRun (Outcome.ok "Download complete.") =
      [WSignal.resultSig "Download complete.", WSignal.fin] :=
  ⟨(c10_worker_signals (Outcome.ok "Download complete.")).1,
    (c10_worker_signals (Outcome.ok "Download complete.")).2.2 "Download complete." rfl⟩
